import Mathlib

/-!
Verification of the breakeven-calculator scripts.

This file gives a shallow embedding, over `ℚ` and `ℤ`, of the arithmetic core of
the repository's four scripts:

* `fidelity-breakeven-calculator.py` — interest-adjusted cost basis, the
  per-(symbol, lot) evaluator, and the bulk S&P 500 comparison with its retry
  helper;
* `schwab-trade_processor.py` — simple-interest accrual, per-lot breakeven, and
  the per-symbol summary loop with its risk flag;
* `ind_spy.py` — the `get_valid_date` price-date lookup.

Python floats are modelled as rationals, dates as integer day numbers, and the
external market-data calls as an explicit `download` oracle argument. Python's
`round(x, 2)` is modelled as rounding `x * 100` to the nearest integer (the
half-way tie rule differs from CPython's bankers rounding; no statement below
depends on a tie). A Python `ZeroDivisionError` site that a claim mentions is
modelled by an explicitly checked division returning `Option`.
-/

/-- Annual savings rate, constant `SAVINGS_RATE = 0.05` of the Fidelity script. -/
def SAVINGS_RATE : ℚ := 5 / 100

/-- Model of Python's `round(x, 2)`: round `x * 100` to the nearest integer and
scale back. (CPython breaks ties to even; nothing proved here hits a tie.) -/
def round2 (x : ℚ) : ℚ := (round (x * 100) : ℚ) / 100

/-- From `fidelity-breakeven-calculator.py`, `compute_interest_adjusted_cost`
(lines 138–141): `days_held = (TODAY - purchase_date).days`, then
`interest = cost_basis_total * ((1 + SAVINGS_RATE / 365) ** days_held - 1)` and
the function returns `cost_basis_total + interest`. The script's module-global
`TODAY` is passed explicitly here. -/
def compute_interest_adjusted_cost (today purchase_date : ℤ) (cost_basis_total : ℚ) : ℚ :=
  let days_held : ℤ := today - purchase_date
  let interest : ℚ := cost_basis_total * ((1 + SAVINGS_RATE / 365) ^ days_held - 1)
  cost_basis_total + interest

/-- From `schwab-trade_processor.py`, `calculate_interest` (lines 38–43):
`days = (today - trade_date).days; interest = principal * rate * days / 365`,
with the `rate` parameter left at its default `0.05` by every caller, and
`today = datetime.today()` passed explicitly here. This is simple interest,
not daily compounding. -/
def calculate_interest (principal : ℚ) (trade_date today : ℤ) : ℚ :=
  let days : ℤ := today - trade_date
  principal * (5 / 100) * (days : ℚ) / 365

/-- From `fidelity-breakeven-calculator.py`, the per-lot body of
`project_future_values` (lines 322–324):
`days_held_future = (future_disposal_date - purchase_date).days`,
`future_interest = cost_basis * ((1 + SAVINGS_RATE / 365) ** days_held_future - 1)`,
`future_adjusted_cost = cost_basis + future_interest`. Returns
`(future_interest, future_adjusted_cost)`. -/
def project_future_lot (future_disposal_date purchase_date : ℤ) (cost_basis : ℚ) : ℚ × ℚ :=
  let days_held_future : ℤ := future_disposal_date - purchase_date
  let future_interest : ℚ := cost_basis * ((1 + SAVINGS_RATE / 365) ^ days_held_future - 1)
  (future_interest, cost_basis + future_interest)

theorem one_le_pow_of_one_le_q (a : ℚ) (h : 1 ≤ a) : ∀ n : ℕ, 1 ≤ a ^ n := by
  intro n
  induction n with
  | zero => simp
  | succ n ih => rw [pow_succ]; nlinarith

/-- C1 (counterexample): the Schwab processor's `calculate_interest` does not
compute the daily-compounded interest `p * ((1 + 0.05/365)^d - 1)`; at
principal 1 and a 2-day holding period the two quantities differ. -/
theorem calculate_interest_not_compounded :
    calculate_interest 1 0 2 ≠ 1 * ((1 + SAVINGS_RATE / 365) ^ (2 : ℕ) - 1) := by
  norm_num [calculate_interest, SAVINGS_RATE]

/-- C1 (amended): the Fidelity calculator's two cost-basis interest sites
(`compute_interest_adjusted_cost` and the per-lot projection inside
`project_future_values`) compute daily-compounded interest
`p * ((1 + 0.05/365)^d - 1)` with adjusted cost `p + interest`, while the
Schwab processor's `calculate_interest` computes simple interest
`p * 0.05 * d / 365`. -/
theorem interest_formulas_by_site (p c : ℚ) (today pd fd td : ℤ) :
    compute_interest_adjusted_cost today pd c
        = c + c * ((1 + SAVINGS_RATE / 365) ^ (today - pd) - 1)
      ∧ (project_future_lot fd pd c).1 = c * ((1 + SAVINGS_RATE / 365) ^ (fd - pd) - 1)
      ∧ (project_future_lot fd pd c).2 = c + c * ((1 + SAVINGS_RATE / 365) ^ (fd - pd) - 1)
      ∧ calculate_interest p td today = p * (5 / 100) * ((today - td : ℤ) : ℚ) / 365 :=
  ⟨rfl, rfl, rfl, rfl⟩

/-- C5: for principal `p ≥ 0` held for a non-negative number of days, the
interest-adjusted cost is at least the principal, and it equals the principal
when the holding period is zero days. -/
theorem adjusted_cost_ge_principal (p : ℚ) (today pd : ℤ)
    (hp : 0 ≤ p) (hd : pd ≤ today) :
    p ≤ compute_interest_adjusted_cost today pd p
      ∧ compute_interest_adjusted_cost pd pd p = p := by
  constructor
  · show p ≤ p + p * ((1 + SAVINGS_RATE / 365) ^ (today - pd) - 1)
    have h1 : (1 : ℚ) ≤ 1 + SAVINGS_RATE / 365 := by norm_num [SAVINGS_RATE]
    have hn : today - pd = ((today - pd).toNat : ℤ) := by omega
    have h2 : (1 : ℚ) ≤ (1 + SAVINGS_RATE / 365) ^ (today - pd) := by
      rw [hn, zpow_natCast]
      exact one_le_pow_of_one_le_q _ h1 _
    nlinarith [mul_nonneg hp (sub_nonneg.mpr h2)]
  · show p + p * ((1 + SAVINGS_RATE / 365) ^ (pd - pd) - 1) = p
    simp

/-- C5 (witness): instantiation at principal 1 held for 3 days. -/
theorem adjusted_cost_ge_principal_witness :
    (1 : ℚ) ≤ compute_interest_adjusted_cost 3 0 1
      ∧ compute_interest_adjusted_cost 0 0 1 = 1 :=
  adjusted_cost_ge_principal 1 3 0 (by norm_num) (by norm_num)

/-- One row of a downloaded close-price series: a (date, close) pair. Dates are
integer day numbers; the series a `yf.download` call returns is ascending by
date. -/
structure PriceEntry where
  date : ℤ
  close : ℚ
deriving DecidableEq

/-- One success row appended to a results list by the Fidelity script: symbol,
purchase date, investment amount, and the rounded current value and percent
change (source lines 41–47). -/
structure EvalResult where
  symbol : String
  purchaseDate : ℤ
  investmentAmount : ℚ
  currentValue : ℚ
  percentChange : ℚ
deriving DecidableEq

/-- One failure row appended to a failures list by the Fidelity script: symbol,
date (the empty string `''` at symbol-level failures is modelled as `none`),
and the exception message (source lines 50–54 and 123–127). -/
structure FailureRec where
  symbol : String
  date : Option ℤ
  error : String
deriving DecidableEq

/-- From `fidelity-breakeven-calculator.py`, `process_symbol_lot` (lines
18–56), with the downloaded series passed in place of the `yf.download` call.
An empty series raises `ValueError("No data returned for symbol on or after
purchase date.")`; an empty look-up of prices dated on or after the purchase
date raises `ValueError("No price available on or after trade date.")`; both
are caught by the surrounding `except` and recorded as a failure row, so the
function always returns normally with `(results, failures)`. `purchase_price`
is the first close dated on or after the purchase date, `current_price` the
last close of the series (`iloc[-1]`). A zero `purchase_price` or zero
`investment_amount` would raise `ZeroDivisionError` in Python (also caught by
the same `except`); the claims below only evaluate this function away from
those divisions, which are treated separately by the checked divisions of C7. -/
def process_symbol_lot (symbol : String) (data : List PriceEntry)
    (purchase_date : ℤ) (investment_amount : ℚ) :
    List EvalResult × List FailureRec :=
  match data with
  | [] => ([], [⟨symbol, some purchase_date,
      "No data returned for symbol on or after purchase date."⟩])
  | d :: ds =>
    match (d :: ds).filter (fun e => purchase_date ≤ e.date) with
    | [] => ([], [⟨symbol, some purchase_date,
        "No price available on or after trade date."⟩])
    | p :: _ =>
      let purchase_price := p.close
      let current_price := (ds.getLast?.getD d).close
      let shares := investment_amount / purchase_price
      let current_value := shares * current_price
      let percent_change := (current_value - investment_amount) / investment_amount * 100
      ([⟨symbol, purchase_date, investment_amount,
         round2 current_value, round2 percent_change⟩], [])

/-- C2: whenever the price series is non-empty, the first price on or after
the purchase date is `P > 0`, and the most recent (last) price of the series is
`C`, the evaluator produces exactly one result whose current value is exactly
`(A/P)*C` and whose percent change is exactly `((A/P)*C - A)/A*100`, each
rounded only at the final display step, and no failure. -/
theorem evaluator_exact_values (symbol : String) (d : PriceEntry)
    (ds : List PriceEntry) (pd : ℤ) (A P C : ℚ)
    (hP : (((d :: ds).filter (fun e => pd ≤ e.date)).head?.map (fun e => e.close)) = some P)
    (hC : ((d :: ds).getLast?.map (fun e => e.close)) = some C)
    (_hP0 : 0 < P) :
    process_symbol_lot symbol (d :: ds) pd A =
      ([⟨symbol, pd, A, round2 (A / P * C), round2 ((A / P * C - A) / A * 100)⟩], []) := by
  rw [List.getLast?_cons] at hC
  cases hfilt : (d :: ds).filter (fun e => pd ≤ e.date) with
  | nil => rw [hfilt] at hP; simp at hP
  | cons p rest =>
    rw [hfilt] at hP
    simp only [List.head?_cons, Option.map_some', Option.some.injEq] at hP
    simp only [Option.map_some', Option.some.injEq] at hC
    simp only [process_symbol_lot, hfilt, hP, hC]

/-- C2 (witness): a two-entry series with purchase price 10 and current price
12 turns an investment of 1000 into a current value of 1200 (+20%). -/
theorem evaluator_exact_values_witness :
    process_symbol_lot "SPY" [⟨5, 10⟩, ⟨9, 12⟩] 5 1000 =
      ([⟨"SPY", 5, 1000, round2 (1000 / 10 * 12),
         round2 ((1000 / 10 * 12 - 1000) / 1000 * 100)⟩], []) :=
  evaluator_exact_values "SPY" ⟨5, 10⟩ [⟨9, 12⟩] 5 1000 10 12
    (by norm_num [List.filter]) (by norm_num [List.getLast?]) (by norm_num)

/-- C3: on an empty price series the evaluator records exactly one
`NoDataForSymbol` failure row, and on a non-empty series with no entry dated
on or after the purchase date it records exactly one `NoPriceOnOrAfterPurchase`
failure row; in both cases it returns the failure row normally, with no
results, rather than letting an exception escape. -/
theorem evaluator_failure_modes (symbol : String) (data : List PriceEntry)
    (pd : ℤ) (A : ℚ) :
    (data = [] →
      process_symbol_lot symbol data pd A =
        ([], [⟨symbol, some pd, "No data returned for symbol on or after purchase date."⟩]))
    ∧ (data ≠ [] → (∀ e ∈ data, e.date < pd) →
      process_symbol_lot symbol data pd A =
        ([], [⟨symbol, some pd, "No price available on or after trade date."⟩])) := by
  constructor
  · rintro rfl; rfl
  · intro hne hall
    cases data with
    | nil => exact absurd rfl hne
    | cons d ds =>
      have hfilt : (d :: ds).filter (fun e => pd ≤ e.date) = [] := by
        rw [List.filter_eq_nil_iff]
        intro e he
        simpa using not_le.mpr (hall e he)
      simp only [process_symbol_lot, hfilt]

/-- C3 (witness): an empty series, and a one-entry series dated strictly
before the purchase date, each yield the corresponding single failure row. -/
theorem evaluator_failure_modes_witness :
    process_symbol_lot "AAPL" [] 7 500 =
      ([], [⟨"AAPL", some 7, "No data returned for symbol on or after purchase date."⟩])
    ∧ process_symbol_lot "AAPL" [⟨3, 10⟩] 7 500 =
      ([], [⟨"AAPL", some 7, "No price available on or after trade date."⟩]) :=
  ⟨(evaluator_failure_modes "AAPL" [] 7 500).1 rfl,
   (evaluator_failure_modes "AAPL" [⟨3, 10⟩] 7 500).2 (by simp)
     (by intro e he; simp at he; rw [he]; norm_num)⟩

/-- From `fidelity-breakeven-calculator.py`, `main` (lines 418–420):
`adjusted_cost = compute_interest_adjusted_cost(purchase_date, cost_basis_total)`
followed by the unguarded division `breakeven_price = adjusted_cost / quantity`.
Python raises `ZeroDivisionError` when `quantity == 0`; the checked division
makes that error case explicit as `none`. -/
def breakeven_price_checked (today purchase_date : ℤ) (cost_basis_total : ℚ)
    (quantity : ℤ) : Option ℚ :=
  let adjusted_cost := compute_interest_adjusted_cost today purchase_date cost_basis_total
  if quantity = 0 then none else some (adjusted_cost / (quantity : ℚ))

/-- From `fidelity-breakeven-calculator.py`, `process_symbol_lot` (line 39):
the unguarded division
`percent_change = ((current_value - investment_amount) / investment_amount) * 100`.
Python raises `ZeroDivisionError` when `investment_amount == 0`; the checked
division makes that error case explicit as `none`. -/
def percent_change_checked (current_value investment_amount : ℚ) : Option ℚ :=
  if investment_amount = 0 then none
  else some ((current_value - investment_amount) / investment_amount * 100)

/-- C7: a zero quantity makes the breakeven-price division fail, and a zero
investment amount makes the percent-change division fail; neither division has
any other guard, so under the documented preconditions `quantity > 0` and
`investment amount > 0` both divisions succeed and the error branch is
unreachable. -/
theorem division_error_iff_zero (today pd : ℤ) (cost cv A : ℚ) (q : ℤ) :
    breakeven_price_checked today pd cost 0 = none
    ∧ percent_change_checked cv 0 = none
    ∧ (0 < q → breakeven_price_checked today pd cost q =
        some (compute_interest_adjusted_cost today pd cost / (q : ℚ)))
    ∧ (0 < A → percent_change_checked cv A =
        some ((cv - A) / A * 100)) := by
  refine ⟨rfl, rfl, fun hq => ?_, fun hA => ?_⟩
  · simp only [breakeven_price_checked, if_neg (by omega : ¬ q = 0)]
  · simp only [percent_change_checked, if_neg (ne_of_gt hA)]

/-- C7 (witness): with quantity 2 and investment amount 1000 both checked
divisions succeed on concrete inputs. -/
theorem division_error_iff_zero_witness :
    breakeven_price_checked 0 0 100 2 =
      some (compute_interest_adjusted_cost 0 0 100 / (2 : ℚ))
    ∧ percent_change_checked 1200 1000 = some ((1200 - 1000) / 1000 * 100) :=
  ⟨(division_error_iff_zero 0 0 100 1200 1000 2).2.2.1 (by norm_num),
   (division_error_iff_zero 0 0 100 1200 1000 2).2.2.2 (by norm_num)⟩

/-- Ordering used by the bulk report: row `a` precedes row `b` when `a`'s
percent change is at least `b`'s (i.e. `sort_values(by='Percent Change',
ascending=False)`). -/
def percentDescOrder (a b : EvalResult) : Prop := b.percentChange ≤ a.percentChange

instance : DecidableRel percentDescOrder :=
  fun a b => inferInstanceAs (Decidable (b.percentChange ≤ a.percentChange))

instance : IsTotal EvalResult percentDescOrder :=
  ⟨fun a b => le_total b.percentChange a.percentChange⟩

instance : IsTrans EvalResult percentDescOrder :=
  ⟨fun _ _ _ h1 h2 => le_trans h2 h1⟩

/-- From `fidelity-breakeven-calculator.py`, `compare_sp500_performance`
(lines 276–280): the collected result rows are sorted by `Percent Change` in
descending order (`ascending=False`) and then written to the output CSV. The
sort algorithm is modelled by insertion sort; only sortedness and the
permutation property of the saved order are used. -/
def compare_sp500_report (all_results : List EvalResult) : List EvalResult :=
  List.insertionSort percentDescOrder all_results

/-- C6: the saved bulk S&P 500 report lists exactly the collected rows, and in
the saved order every row's percent change is at least every later row's (in
particular each adjacent pair is in descending order), whatever order the rows
were collected in. -/
theorem sp500_report_sorted (all_results : List EvalResult) :
    (compare_sp500_report all_results).Sorted percentDescOrder
    ∧ List.Perm (compare_sp500_report all_results) all_results
    ∧ ∀ other : List EvalResult, List.Perm other all_results →
        List.Perm (compare_sp500_report other) (compare_sp500_report all_results) := by
  refine ⟨List.sorted_insertionSort percentDescOrder all_results,
    List.perm_insertionSort percentDescOrder all_results, fun other h => ?_⟩
  exact (List.perm_insertionSort percentDescOrder other).trans
    (h.trans (List.perm_insertionSort percentDescOrder all_results).symm)

/-- C6 (witness): sorting a two-row collection given in the opposite
collection order yields a permutation of sorting the original collection. -/
theorem sp500_report_sorted_witness :
    List.Perm
      (compare_sp500_report [⟨"B", 0, 1000, 900, -10⟩, ⟨"A", 0, 1000, 1200, 20⟩])
      (compare_sp500_report [⟨"A", 0, 1000, 1200, 20⟩, ⟨"B", 0, 1000, 900, -10⟩]) :=
  (sp500_report_sorted [⟨"A", 0, 1000, 1200, 20⟩, ⟨"B", 0, 1000, 900, -10⟩]).2.2
    [⟨"B", 0, 1000, 900, -10⟩, ⟨"A", 0, 1000, 1200, 20⟩]
    (List.Perm.swap _ _ _)

/-- One parsed Schwab trade-confirmation lot: trade date, per-share price,
quantity, and total amount (negative for a buy in the source data). -/
structure SchwabTrade where
  tradeDate : ℤ
  price : ℚ
  quantity : ℤ
  total : ℚ
deriving DecidableEq

/-- One row of the Schwab per-symbol lot breakdown (`lot_flags` entries in
`main`, lines 139–146): date, price, quantity, accrued interest, lot breakeven
and the risk marker string. -/
structure LotFlag where
  date : ℤ
  price : ℚ
  quantity : ℤ
  interest : ℚ
  breakeven : ℚ
  risk : String
deriving DecidableEq

/-- Per-symbol summary computed by the Schwab `main` loop (lines 123–148). -/
structure SymbolSummary where
  totalQuantity : ℤ
  totalCost : ℚ
  lotBreakevens : List ℚ
  lotFlags : List LotFlag
  highestPrice : ℚ
  totalInterest : ℚ
  finalBreakeven : ℚ
deriving DecidableEq

/-- From `schwab-trade_processor.py`, `calculate_breakeven` (lines 45–46):
`round((abs(total) + interest) / quantity, 2)`. -/
def calculate_breakeven (total interest : ℚ) (quantity : ℤ) : ℚ :=
  round2 ((|total| + interest) / (quantity : ℚ))

/-- Model of Python's built-in `max` on a list of numbers. Python raises on an
empty list; every call site below passes a non-empty list, and the `0` returned
here for `[]` is never exercised by the theorems. -/
def pyMax (l : List ℚ) : ℚ :=
  match l with
  | [] => 0
  | x :: xs => xs.foldl max x

/-- One iteration of the Schwab per-symbol lot loop (`main`, lines 132–146).
The accumulator carries `(lot_breakevens, lot_flags, total_interest)`. The risk
marker is `"⚠️"` when the lot's breakeven exceeds
`max(highest_price, max(lot_breakevens))` — evaluated after the current
breakeven has already been appended to `lot_breakevens` — and `"-"` otherwise. -/
def summarize_step (today : ℤ) (highest_price : ℚ)
    (acc : List ℚ × List LotFlag × ℚ) (t : SchwabTrade) :
    List ℚ × List LotFlag × ℚ :=
  let interest := calculate_interest |t.total| t.tradeDate today
  let total_interest := acc.2.2 + interest
  let lot_breakeven := calculate_breakeven t.total interest t.quantity
  let lot_breakevens := acc.1 ++ [lot_breakeven]
  let risk := if max highest_price (pyMax lot_breakevens) < lot_breakeven then "⚠️" else "-"
  (lot_breakevens,
   acc.2.1 ++ [⟨t.tradeDate, t.price, t.quantity, interest, lot_breakeven, risk⟩],
   total_interest)

/-- From `schwab-trade_processor.py`, the per-symbol body of `main` (lines
123–148): totals over the symbol's lots, `highest_price = max(t['Price'])`,
the lot loop, and `final_breakeven = max(max(lot_breakevens), highest_price)`. -/
def summarize_symbol (lots : List SchwabTrade) (today : ℤ) : SymbolSummary :=
  let total_quantity := (lots.map (fun t => t.quantity)).sum
  let total_cost := (lots.map (fun t => |t.total|)).sum
  let highest_price := pyMax (lots.map (fun t => t.price))
  let z := lots.foldl (summarize_step today highest_price) ([], [], 0)
  { totalQuantity := total_quantity
    totalCost := total_cost
    lotBreakevens := z.1
    lotFlags := z.2.1
    highestPrice := highest_price
    totalInterest := z.2.2
    finalBreakeven := max (pyMax z.1) highest_price }

theorem le_foldl_max (l : List ℚ) : ∀ b : ℚ, b ≤ l.foldl max b := by
  induction l with
  | nil => intro b; exact le_refl b
  | cons x xs ih =>
    intro b
    exact le_trans (le_max_left b x) (ih (max b x))

theorem mem_le_foldl_max (l : List ℚ) : ∀ b x : ℚ, x ∈ l → x ≤ l.foldl max b := by
  induction l with
  | nil => intro b x hx; simp at hx
  | cons y ys ih =>
    intro b x hx
    rcases List.mem_cons.mp hx with h | h
    · subst h
      exact le_trans (le_max_right b x) (le_foldl_max ys (max b x))
    · exact ih (max b y) x h

theorem mem_le_pyMax (x : ℚ) (l : List ℚ) (hx : x ∈ l) : x ≤ pyMax l := by
  cases l with
  | nil => simp at hx
  | cons y ys =>
    rcases List.mem_cons.mp hx with h | h
    · subst h; exact le_foldl_max ys x
    · exact mem_le_foldl_max ys y x h

theorem le_pyMax_append (l : List ℚ) (b : ℚ) : b ≤ pyMax (l ++ [b]) :=
  mem_le_pyMax b (l ++ [b]) (List.mem_append_right l (List.mem_singleton.mpr rfl))

theorem summarize_fold_risk (today : ℤ) (hp : ℚ) :
    ∀ (lots : List SchwabTrade) (acc : List ℚ × List LotFlag × ℚ),
      (∀ f ∈ acc.2.1, f.risk = "-") →
      ∀ f ∈ (lots.foldl (summarize_step today hp) acc).2.1, f.risk = "-" := by
  intro lots
  induction lots with
  | nil => intro acc hacc; exact hacc
  | cons t ts ih =>
    intro acc hacc
    refine ih _ ?_
    intro f hf
    simp only [summarize_step, List.mem_append, List.mem_singleton] at hf
    rcases hf with hf | hf
    · exact hacc f hf
    · subst hf
      simp only
      rw [if_neg]
      exact not_lt.mpr (le_trans
        (le_pyMax_append acc.1 _)
        (le_max_right hp _))

/-- C8: the risk-flag comparison tests each lot's breakeven against the
maximum of a list that already contains that same breakeven, so the condition
is never true and every lot's risk marker in the Schwab per-symbol summary is
the sentinel `"-"`, never the warning marker. -/
theorem risk_flag_always_dash (lots : List SchwabTrade) (today : ℤ) :
    ∀ f ∈ (summarize_symbol lots today).lotFlags, f.risk = "-" := by
  intro f hf
  exact summarize_fold_risk today _ lots ([], [], 0) (by intro g hg; simp at hg) f hf

/-- C8 (witness): a one-lot symbol bought at 10 and held for a year carries
accrued interest 0.50, lot breakeven 10.50, and risk marker `"-"`. -/
theorem risk_flag_always_dash_witness :
    (⟨0, 10, 1, 1/2, 21/2, "-"⟩ : LotFlag) ∈
        (summarize_symbol [⟨0, 10, 1, -10⟩] 365).lotFlags
    ∧ (⟨0, 10, 1, 1/2, 21/2, "-"⟩ : LotFlag).risk = "-" :=
  ⟨by
    simp [summarize_symbol, summarize_step, pyMax, calculate_interest,
      calculate_breakeven, round2]
    norm_num [round_eq],
   risk_flag_always_dash [⟨0, 10, 1, -10⟩] 365 ⟨0, 10, 1, 1/2, 21/2, "-"⟩
    (by
      simp [summarize_symbol, summarize_step, pyMax, calculate_interest,
        calculate_breakeven, round2]
      norm_num [round_eq])⟩

/-- C9: the Schwab per-symbol summary's final breakeven equals
`max(max(lot_breakevens), highest_price)`, and is therefore at least every
individual lot's breakeven and at least the highest price paid for any lot of
the symbol. -/
theorem final_breakeven_is_max (lots : List SchwabTrade) (today : ℤ) :
    (summarize_symbol lots today).finalBreakeven
        = max (pyMax (summarize_symbol lots today).lotBreakevens)
            (summarize_symbol lots today).highestPrice
    ∧ (∀ b ∈ (summarize_symbol lots today).lotBreakevens,
        b ≤ (summarize_symbol lots today).finalBreakeven)
    ∧ (∀ t ∈ lots, t.price ≤ (summarize_symbol lots today).finalBreakeven) := by
  refine ⟨rfl, fun b hb => ?_, fun t ht => ?_⟩
  · exact le_trans (mem_le_pyMax b _ hb) (le_max_left _ _)
  · refine le_trans ?_ (le_max_right (pyMax (summarize_symbol lots today).lotBreakevens) _)
    exact mem_le_pyMax t.price (lots.map (fun t => t.price))
      (List.mem_map.mpr ⟨t, ht, rfl⟩)

/-- C9 (witness): on a concrete one-lot symbol the final breakeven is the
stated maximum and dominates the lot's purchase price of 10. -/
theorem final_breakeven_is_max_witness :
    (summarize_symbol [⟨0, 10, 1, -10⟩] 365).finalBreakeven
        = max (pyMax (summarize_symbol [⟨0, 10, 1, -10⟩] 365).lotBreakevens)
            (summarize_symbol [⟨0, 10, 1, -10⟩] 365).highestPrice
    ∧ (⟨0, 10, 1, -10⟩ : SchwabTrade).price
        ≤ (summarize_symbol [⟨0, 10, 1, -10⟩] 365).finalBreakeven :=
  ⟨(final_breakeven_is_max [⟨0, 10, 1, -10⟩] 365).1,
   (final_breakeven_is_max [⟨0, 10, 1, -10⟩] 365).2.2 ⟨0, 10, 1, -10⟩ (by simp)⟩

/-- The `prefer` argument of `get_valid_date` in `ind_spy.py` (default
`'after'` at the definition; `calculate_growth` passes both values). -/
inductive Prefer where
  | after
  | before
deriving DecidableEq

/-- From `ind_spy.py`, `get_valid_date` (lines 6–16): with `prefer='after'` it
walks the history's dates in order and returns the first one `≥ target_date`;
otherwise it walks them in reverse and returns the first one `≤ target_date`;
if the walk finds none it returns `None`. -/
def get_valid_date (dates : List ℤ) (target_date : ℤ) (prefer : Prefer) : Option ℤ :=
  match prefer with
  | .after => dates.find? (fun d => target_date ≤ d)
  | .before => dates.reverse.find? (fun d => d ≤ target_date)

theorem find?_first_of_pairwise {α : Type} (r : α → α → Prop) (p : α → Bool) :
    ∀ (l : List α), l.Pairwise r → ∀ d, l.find? p = some d →
      ∀ e ∈ l, p e → d = e ∨ r d e := by
  intro l
  induction l with
  | nil => intro _ d hd; simp at hd
  | cons x xs ih =>
    intro hpw d hd e he hpe
    rcases List.pairwise_cons.mp hpw with ⟨hx, hxs⟩
    by_cases hpx : p x
    · rw [List.find?_cons_of_pos xs hpx] at hd
      cases hd
      rcases List.mem_cons.mp he with h | h
      · exact Or.inl h.symm
      · exact Or.inr (hx e h)
    · rw [List.find?_cons_of_neg xs hpx] at hd
      rcases List.mem_cons.mp he with h | h
      · subst h; exact absurd hpe hpx
      · exact ih hxs d hd e h hpe

/-- C10: over a price history whose dates are in ascending order,
`get_valid_date` with `prefer='after'` returns the earliest date on or after
the target, with `prefer='before'` the latest date on or before the target,
and in each mode it returns `None` exactly when no date in the history
satisfies the respective condition. -/
theorem get_valid_date_correct (dates : List ℤ) (t : ℤ)
    (hsort : dates.Pairwise (fun a b => a ≤ b)) :
    (∀ d, get_valid_date dates t .after = some d →
        d ∈ dates ∧ t ≤ d ∧ ∀ e ∈ dates, t ≤ e → d ≤ e)
    ∧ (get_valid_date dates t .after = none ↔ ∀ e ∈ dates, e < t)
    ∧ (∀ d, get_valid_date dates t .before = some d →
        d ∈ dates ∧ d ≤ t ∧ ∀ e ∈ dates, e ≤ t → e ≤ d)
    ∧ (get_valid_date dates t .before = none ↔ ∀ e ∈ dates, t < e) := by
  have hrev : dates.reverse.Pairwise (fun a b => b ≤ a) :=
    List.pairwise_reverse.mpr hsort
  refine ⟨fun d hd => ?_, ?_, fun d hd => ?_, ?_⟩
  · refine ⟨List.mem_of_find?_eq_some hd, by simpa using List.find?_some hd,
      fun e he hte => ?_⟩
    rcases find?_first_of_pairwise (fun a b => a ≤ b) _ dates hsort d hd e he
        (by simpa using hte) with h | h
    · exact le_of_eq h
    · exact h
  · simp [get_valid_date, List.find?_eq_none, Int.not_le]
  · refine ⟨List.mem_reverse.mp (List.mem_of_find?_eq_some hd),
      by simpa using List.find?_some hd, fun e he het => ?_⟩
    rcases find?_first_of_pairwise (fun a b => b ≤ a) _ dates.reverse hrev d hd e
        (List.mem_reverse.mpr he) (by simpa using het) with h | h
    · exact le_of_eq h.symm
    · exact h
  · simp [get_valid_date, List.find?_eq_none, Int.not_le]

/-- C10 (witness): in the ascending history `[1, 3, 5]` with target 2,
`prefer='after'` returns 3 (a member, on or after 2) and `prefer='before'`
returns 1 (a member, on or before 2). -/
theorem get_valid_date_correct_witness :
    ((3 : ℤ) ∈ ([1, 3, 5] : List ℤ) ∧ (2 : ℤ) ≤ 3)
    ∧ ((1 : ℤ) ∈ ([1, 3, 5] : List ℤ) ∧ (1 : ℤ) ≤ 2) := by
  have h := get_valid_date_correct [1, 3, 5] 2 (by decide)
  have ha := h.1 3 (by decide)
  have hb := h.2.2.1 1 (by decide)
  exact ⟨⟨ha.1, ha.2.1⟩, ⟨hb.1, hb.2.1⟩⟩

/-- One benchmark trade used by the bulk comparison: the dict with
`'Purchase Date'` and `'Original Cost Basis'` built in `main` (lines 435–438). -/
structure Trade where
  purchaseDate : ℤ
  originalCostBasis : ℚ
deriving DecidableEq

/-- The symbol-level failure row appended when a download returns no data
(`raise ValueError("Empty data returned")` in `process_sp500_symbol`, lines
94–95 and 122–127; its `Date` field is the empty string, modelled `none`). -/
def emptyDataFailure (symbol : String) : FailureRec :=
  ⟨symbol, none, "Empty data returned"⟩

/-- The inner per-trade loop of `process_sp500_symbol` (lines 97–120): for each
trade, `purchase_price` is the first close dated on or after the trade's
purchase date — `iloc[0]` on an empty selection raises an `IndexError`, caught
and recorded as a per-trade failure row — and `current_price` is the last
close of the downloaded series. -/
def eval_trades_against (symbol : String) (d : PriceEntry) (ds : List PriceEntry) :
    List Trade → List EvalResult × List FailureRec
  | [] => ([], [])
  | trade :: rest =>
      let acc := eval_trades_against symbol d ds rest
      match ((d :: ds).filter (fun e => trade.purchaseDate ≤ e.date)).head? with
      | none => (acc.1, ⟨symbol, some trade.purchaseDate,
          "single positional indexer is out-of-bounds"⟩ :: acc.2)
      | some p =>
          let current_price := (ds.getLast?.getD d).close
          let shares := trade.originalCostBasis / p.close
          let current_value := shares * current_price
          let percent_change :=
            (current_value - trade.originalCostBasis) / trade.originalCostBasis * 100
          (⟨symbol, trade.purchaseDate, trade.originalCostBasis,
            round2 current_value, round2 percent_change⟩ :: acc.1, acc.2)

/-- From `fidelity-breakeven-calculator.py`, `process_sp500_symbol` (lines
86–131), with the `yf.download` call replaced by the `download` oracle applied
to the Yahoo-normalised symbol: an empty download yields the single
symbol-level failure row, otherwise every trade is evaluated against the
downloaded series. (The trailing `time.sleep` calls have no effect on the
returned value and are not modelled.) -/
def process_sp500_symbol (symbol : String) (trades : List Trade)
    (download : String → List PriceEntry) : List EvalResult × List FailureRec :=
  let yf_symbol := symbol.replace "." "-"
  match download yf_symbol with
  | [] => ([], [emptyDataFailure symbol])
  | d :: ds => eval_trades_against symbol d ds trades

/-- Modelled from the spec: the repository defines the per-symbol worker
(`process_sp500_symbol`) and the retry helper (`retry_failed_symbols_once`)
but contains no driver that runs the worker over the whole symbol universe —
the live bulk path `compare_sp500_performance` inlines its own single-pass
loop and never retries. Following spec §4.4, a pass over a symbol universe
runs the worker once per symbol and concatenates the result and failure
lists (collection order is immaterial to the claims proved below). -/
def run_symbols (trades : List Trade) (download : String → List PriceEntry) :
    List String → List EvalResult × List FailureRec
  | [] => ([], [])
  | s :: rest =>
      let r := process_sp500_symbol s trades download
      let acc := run_symbols trades download rest
      (r.1 ++ acc.1, r.2 ++ acc.2)

/-- From `fidelity-breakeven-calculator.py`, `retry_failed_symbols_once` (line
63): `symbols_to_retry = list(set(f['Symbol'] for f in failures if
f['Symbol']))` — the distinct non-empty symbols of the failure rows. -/
def symbols_to_retry (failures : List FailureRec) : List String :=
  ((failures.map (fun f => f.symbol)).filter (fun s => s ≠ "")).dedup

/-- From `fidelity-breakeven-calculator.py`, `retry_failed_symbols_once`
(lines 59–84): re-run `process_sp500_symbol` once for each distinct failed
symbol, collecting the retry results and retry failures. -/
def retry_failed_symbols_once (failures : List FailureRec) (trades : List Trade)
    (download : String → List PriceEntry) : List EvalResult × List FailureRec :=
  run_symbols trades download (symbols_to_retry failures)

/-- Modelled from the spec: no code in the repository feeds the first pass's
failures into `retry_failed_symbols_once` and merges the two passes. Following
spec §4.4 ("symbols that failed in the first pass may be retried exactly once
…; a failure on retry is terminal for that symbol and recorded permanently"),
the final results are the first-pass results plus the retry results, and the
final failures are the retry pass's failures. -/
def bulk_with_retry (symbols : List String) (trades : List Trade)
    (download1 download2 : String → List PriceEntry) :
    List EvalResult × List FailureRec :=
  let p1 := run_symbols trades download1 symbols
  let p2 := retry_failed_symbols_once p1.2 trades download2
  (p1.1 ++ p2.1, p2.2)

theorem eval_trades_against_symbol (s : String) (d : PriceEntry) (ds : List PriceEntry) :
    ∀ (ts : List Trade), ∀ r ∈ (eval_trades_against s d ds ts).1, r.symbol = s := by
  intro ts
  induction ts with
  | nil => intro r hr; simp [eval_trades_against] at hr
  | cons t rest ih =>
    intro r hr
    cases hh : ((d :: ds).filter (fun e => t.purchaseDate ≤ e.date)).head? with
    | none =>
      simp only [eval_trades_against, hh] at hr
      exact ih r hr
    | some p =>
      simp only [eval_trades_against, hh] at hr
      rcases List.mem_cons.mp hr with h | h
      · subst h; rfl
      · exact ih r h

theorem eval_trades_against_nonempty (s : String) (d : PriceEntry) (ds : List PriceEntry)
    (t : Trade) (rest : List Trade)
    (hsucc : (eval_trades_against s d ds (t :: rest)).2 = []) :
    (eval_trades_against s d ds (t :: rest)).1 ≠ [] := by
  cases hh : ((d :: ds).filter (fun e => t.purchaseDate ≤ e.date)).head? with
  | none =>
    simp only [eval_trades_against, hh] at hsucc
    exact absurd hsucc (List.cons_ne_nil _ _)
  | some p =>
    simp only [eval_trades_against, hh]
    exact List.cons_ne_nil _ _

theorem process_sp500_symbol_tag (s : String) (trades : List Trade)
    (download : String → List PriceEntry) :
    ∀ r ∈ (process_sp500_symbol s trades download).1, r.symbol = s := by
  intro r hr
  cases hdl : download (s.replace "." "-") with
  | nil => simp only [process_sp500_symbol, hdl] at hr; simp at hr
  | cons d ds =>
    simp only [process_sp500_symbol, hdl] at hr
    exact eval_trades_against_symbol s d ds trades r hr

theorem process_sp500_symbol_succ_nonempty (s : String) (trades : List Trade)
    (download : String → List PriceEntry) (htr : trades ≠ [])
    (hsucc : (process_sp500_symbol s trades download).2 = []) :
    (process_sp500_symbol s trades download).1 ≠ [] := by
  cases hdl : download (s.replace "." "-") with
  | nil =>
    rw [show process_sp500_symbol s trades download = ([], [emptyDataFailure s]) by
      simp only [process_sp500_symbol, hdl]] at hsucc
    exact absurd hsucc (List.cons_ne_nil _ _)
  | cons d ds =>
    rw [show process_sp500_symbol s trades download = eval_trades_against s d ds trades by
      simp only [process_sp500_symbol, hdl]] at hsucc ⊢
    cases trades with
    | nil => exact absurd rfl htr
    | cons t rest => exact eval_trades_against_nonempty s d ds t rest hsucc

theorem run_symbols_mem_results (trades : List Trade)
    (download : String → List PriceEntry) (r : EvalResult) :
    ∀ syms : List String, r ∈ (run_symbols trades download syms).1 ↔
      ∃ s ∈ syms, r ∈ (process_sp500_symbol s trades download).1 := by
  intro syms
  induction syms with
  | nil => simp [run_symbols]
  | cons s rest ih =>
    simp only [run_symbols, List.mem_append, ih, List.mem_cons]
    constructor
    · rintro (h | ⟨s', hs', hr⟩)
      · exact ⟨s, Or.inl rfl, h⟩
      · exact ⟨s', Or.inr hs', hr⟩
    · rintro ⟨s', hs' | hs', hr⟩
      · subst hs'; exact Or.inl hr
      · exact Or.inr ⟨s', hs', hr⟩

theorem run_symbols_all_succ (trades : List Trade)
    (download : String → List PriceEntry) :
    ∀ syms : List String,
      (∀ s ∈ syms, (process_sp500_symbol s trades download).2 = []) →
      (run_symbols trades download syms).2 = [] := by
  intro syms
  induction syms with
  | nil => intro _; rfl
  | cons s rest ih =>
    intro h
    simp only [run_symbols]
    rw [h s (List.mem_cons_self s rest), ih (fun s' hs' => h s' (List.mem_cons_of_mem s hs'))]
    rfl

theorem run_symbols_all_fail (trades : List Trade)
    (download : String → List PriceEntry) :
    ∀ syms : List String,
      (∀ s ∈ syms, process_sp500_symbol s trades download = ([], [emptyDataFailure s])) →
      run_symbols trades download syms = ([], syms.map emptyDataFailure) := by
  intro syms
  induction syms with
  | nil => intro _; rfl
  | cons s rest ih =>
    intro h
    simp only [run_symbols]
    rw [h s (List.mem_cons_self s rest), ih (fun s' hs' => h s' (List.mem_cons_of_mem s hs'))]
    rfl

theorem run_symbols_fail_eq (trades : List Trade)
    (download : String → List PriceEntry) :
    ∀ syms : List String,
      (∀ s ∈ syms, (process_sp500_symbol s trades download).2 = [] ∨
        process_sp500_symbol s trades download = ([], [emptyDataFailure s])) →
      (run_symbols trades download syms).2 =
        (syms.filter (fun s => (process_sp500_symbol s trades download).2 ≠ [])).map
          emptyDataFailure := by
  intro syms
  induction syms with
  | nil => intro _; rfl
  | cons s rest ih =>
    intro h
    have hrest := ih (fun s' hs' => h s' (List.mem_cons_of_mem s hs'))
    rcases h s (List.mem_cons_self s rest) with hs | hs
    · simp only [run_symbols, hs]
      rw [List.filter_cons_of_neg (by simp [hs])]
      simpa using hrest
    · simp only [run_symbols, hs]
      rw [List.filter_cons_of_pos (by simp [hs])]
      simp only [List.map_cons]
      simpa using hrest

theorem length_filter_add_length_filter_not {α : Type} (l : List α) (p : α → Bool) :
    (l.filter p).length + (l.filter (fun x => ! p x)).length = l.length := by
  induction l with
  | nil => rfl
  | cons x xs ih =>
    by_cases hx : p x = true
    · rw [List.filter_cons_of_pos hx, List.filter_cons_of_neg (by simp [hx])]
      simp only [List.length_cons]
      omega
    · rw [List.filter_cons_of_neg hx, List.filter_cons_of_pos (by simp [hx])]
      simp only [List.length_cons]
      omega

/-- C4: for a bulk comparison over distinct symbols (non-empty trade list,
non-empty symbol names, and each first-pass symbol either fully succeeding or
failing at the download as in the source), the retry list never repeats a
symbol; if every first-pass failure succeeds on the retry pass, the final
failure list is empty and the final results cover all N symbols; and if every
first-pass failure fails again on the retry pass, the run ends with exactly K
terminal failures and results for exactly the N − K symbols that succeeded
first time. -/
theorem bulk_retry_accounting (symbols : List String) (trades : List Trade)
    (download1 download2 : String → List PriceEntry)
    (hnd : symbols.Nodup) (htr : trades ≠ [])
    (hns : ∀ s ∈ symbols, s ≠ "")
    (hatom : ∀ s ∈ symbols, (process_sp500_symbol s trades download1).2 = [] ∨
        process_sp500_symbol s trades download1 = ([], [emptyDataFailure s])) :
    (symbols_to_retry (run_symbols trades download1 symbols).2).Nodup
    ∧ ((∀ s ∈ symbols, (process_sp500_symbol s trades download1).2 ≠ [] →
          (process_sp500_symbol s trades download2).2 = []) →
        (bulk_with_retry symbols trades download1 download2).2 = []
        ∧ ∀ s ∈ symbols,
            s ∈ (bulk_with_retry symbols trades download1 download2).1.map
              (fun r => r.symbol))
    ∧ ((∀ s ∈ symbols, (process_sp500_symbol s trades download1).2 ≠ [] →
          process_sp500_symbol s trades download2 = ([], [emptyDataFailure s])) →
        (bulk_with_retry symbols trades download1 download2).2.length
            = (symbols.filter
                (fun s => (process_sp500_symbol s trades download1).2 ≠ [])).length
        ∧ (symbols.filter
             (fun s => (process_sp500_symbol s trades download1).2 = [])).length
            = symbols.length
              - (symbols.filter
                  (fun s => (process_sp500_symbol s trades download1).2 ≠ [])).length
        ∧ ∀ s ∈ symbols,
            (s ∈ (bulk_with_retry symbols trades download1 download2).1.map
               (fun r => r.symbol)
              ↔ (process_sp500_symbol s trades download1).2 = [])) := by
  have hP2 : (run_symbols trades download1 symbols).2 =
      (symbols.filter (fun s => (process_sp500_symbol s trades download1).2 ≠ [])).map
        emptyDataFailure :=
    run_symbols_fail_eq trades download1 symbols hatom
  have hfsub : ∀ s ∈ symbols.filter
      (fun s => (process_sp500_symbol s trades download1).2 ≠ []), s ∈ symbols :=
    fun s hs => List.mem_of_mem_filter hs
  have hfnd : (symbols.filter
      (fun s => (process_sp500_symbol s trades download1).2 ≠ [])).Nodup :=
    hnd.filter _
  have hretry : symbols_to_retry (run_symbols trades download1 symbols).2 =
      symbols.filter (fun s => (process_sp500_symbol s trades download1).2 ≠ []) := by
    rw [hP2]
    unfold symbols_to_retry
    rw [List.map_map]
    have h1 : ((fun f : FailureRec => f.symbol) ∘ emptyDataFailure) = @id String := by
      funext s; rfl
    rw [h1, List.map_id]
    rw [List.filter_eq_self.mpr (fun a ha => by simpa using hns a (hfsub a ha))]
    exact List.dedup_eq_self.mpr hfnd
  refine ⟨by unfold symbols_to_retry; exact List.nodup_dedup _, fun hA => ?_, fun hB => ?_⟩
  · have hA2 : ∀ s ∈ symbols.filter
        (fun s => (process_sp500_symbol s trades download1).2 ≠ []),
        (process_sp500_symbol s trades download2).2 = [] :=
      fun s hs => hA s (hfsub s hs) (by simpa using (List.mem_filter.mp hs).2)
    have hret2 : (retry_failed_symbols_once (run_symbols trades download1 symbols).2
        trades download2).2 = [] := by
      unfold retry_failed_symbols_once
      rw [hretry]
      exact run_symbols_all_succ trades download2 _ hA2
    constructor
    · simpa only [bulk_with_retry] using hret2
    · intro s hs
      simp only [bulk_with_retry, List.map_append, List.mem_append]
      by_cases hsucc : (process_sp500_symbol s trades download1).2 = []
      · obtain ⟨r, hr⟩ := List.exists_mem_of_ne_nil _
          (process_sp500_symbol_succ_nonempty s trades download1 htr hsucc)
        exact Or.inl (List.mem_map.mpr
          ⟨r, (run_symbols_mem_results trades download1 r symbols).mpr ⟨s, hs, hr⟩,
           process_sp500_symbol_tag s trades download1 r hr⟩)
      · have hsf : s ∈ symbols.filter
            (fun s => (process_sp500_symbol s trades download1).2 ≠ []) :=
          List.mem_filter.mpr ⟨hs, by simpa using hsucc⟩
        obtain ⟨r, hr⟩ := List.exists_mem_of_ne_nil _
          (process_sp500_symbol_succ_nonempty s trades download2 htr
            (hA s hs hsucc))
        refine Or.inr (List.mem_map.mpr ⟨r, ?_,
          process_sp500_symbol_tag s trades download2 r hr⟩)
        unfold retry_failed_symbols_once
        rw [hretry]
        exact (run_symbols_mem_results trades download2 r _).mpr ⟨s, hsf, hr⟩
  · have hB2 : ∀ s ∈ symbols.filter
        (fun s => (process_sp500_symbol s trades download1).2 ≠ []),
        process_sp500_symbol s trades download2 = ([], [emptyDataFailure s]) :=
      fun s hs => hB s (hfsub s hs) (by simpa using (List.mem_filter.mp hs).2)
    have hret : run_symbols trades download2
        (symbols.filter (fun s => (process_sp500_symbol s trades download1).2 ≠ []))
        = ([], (symbols.filter
            (fun s => (process_sp500_symbol s trades download1).2 ≠ [])).map
            emptyDataFailure) :=
      run_symbols_all_fail trades download2 _ hB2
    have hp2eq : retry_failed_symbols_once (run_symbols trades download1 symbols).2
        trades download2
        = ([], (symbols.filter
            (fun s => (process_sp500_symbol s trades download1).2 ≠ [])).map
            emptyDataFailure) := by
      unfold retry_failed_symbols_once
      rw [hretry]
      exact hret
    refine ⟨?_, ?_, ?_⟩
    · simp only [bulk_with_retry, hp2eq, List.length_map]
    · have hsum := length_filter_add_length_filter_not symbols
        (fun s => decide ((process_sp500_symbol s trades download1).2 = []))
      have hco : symbols.filter
            (fun x => ! decide ((process_sp500_symbol x trades download1).2 = []))
          = symbols.filter
            (fun s => (process_sp500_symbol s trades download1).2 ≠ []) :=
        List.filter_congr (fun a _ => by simp)
      rw [hco] at hsum
      omega
    · intro s hs
      simp only [bulk_with_retry, hp2eq, List.append_nil]
      constructor
      · intro hmem
        obtain ⟨r, hrp, hrs⟩ := List.mem_map.mp hmem
        obtain ⟨s', hs', hr⟩ := (run_symbols_mem_results trades download1 r symbols).mp hrp
        have : s' = s := by
          rw [← hrs]
          exact (process_sp500_symbol_tag s' trades download1 r hr).symm
        subst this
        rcases hatom s' hs' with h | h
        · exact h
        · rw [h] at hr
          simp at hr
      · intro hsucc
        obtain ⟨r, hr⟩ := List.exists_mem_of_ne_nil _
          (process_sp500_symbol_succ_nonempty s trades download1 htr hsucc)
        exact List.mem_map.mpr
          ⟨r, (run_symbols_mem_results trades download1 r symbols).mpr ⟨s, hs, hr⟩,
           process_sp500_symbol_tag s trades download1 r hr⟩

/-- C4 (witness): one symbol that fails the first pass (empty download) and
succeeds on the retry pass ends the run with no terminal failures. -/
theorem bulk_retry_accounting_witness :
    (bulk_with_retry ["A"] [⟨0, 100⟩] (fun _ => []) (fun _ => [⟨0, 10⟩])).2 = [] :=
  ((bulk_retry_accounting ["A"] [⟨0, 100⟩] (fun _ => []) (fun _ => [⟨0, 10⟩])
      (by simp) (by simp) (by simp) (fun s _ => Or.inr rfl)).2.1
    (fun s _ _ => rfl)).1
